import Mathlib

/-
Verification of the fal_upload_wrapper repository (fal_upload_db.py and
fal_upload_wrapper.py): a SQLite-backed deduplication cache for uploaded
files.  The uploads table is modelled as a list of rows plus the
AUTOINCREMENT counter; the network (requests.head) and the operating
system's file calls are modelled as oracles passed to each operation.
Timestamps (datetime.now().isoformat() strings and SQLite
CURRENT_TIMESTAMP values) are modelled as naturals ordered
chronologically.
-/

set_option maxHeartbeats 1000000

/-- Outcome of the HTTP HEAD request issued by requests.head in
check_url_validity: either the final status code after redirects, or a
network failure (timeout, connection failure or protocol error, which the
source observes as a raised exception). -/
inductive ProbeResult where
  | status (code : Nat)
  | failure
deriving DecidableEq

/-- Oracle for the operating-system calls made by the source
(os.path.exists, os.path.getsize, and open/read inside
calculate_file_hash).  fsize and fhash return none exactly when the
corresponding call raises an exception in the source. -/
structure FileSystem where
  fexists : String → Bool
  fsize : String → Option Nat
  fhash : String → Option String

/-- A row of the uploads table as created by init_database in
fal_upload_db.py.  is_valid is declared BOOLEAN in SQLite, which is
INTEGER affinity, so it is modelled as an integer: the INSERT default
writes 1 and invalidate_record writes 0. -/
structure UploadRecord where
  id : Nat
  filename : String
  url : String
  filePath : Option String
  fileSize : Option Nat
  fileHash : Option String
  uploadDate : Nat
  lastVerified : Option Nat
  isValid : Int
  metadata : Option String
  createdAt : Nat
  updatedAt : Nat
deriving DecidableEq

/-- The database state: the rows of the uploads table together with the
next AUTOINCREMENT rowid (ids start at 1 and are never reused). -/
structure FalUploadDB where
  rows : List UploadRecord
  nextId : Nat
deriving DecidableEq

/-- A freshly initialised database (init_database on a new file). -/
def initDB : FalUploadDB := { rows := [], nextId := 1 }

/-- FalUploadDB.check_url_validity: requests.head with allow_redirects,
returning status_code == 200, and False when any exception is raised. -/
def check_url_validity (probe : String → Nat → ProbeResult) (url : String)
    (timeout : Nat) : Bool :=
  match probe url timeout with
  | ProbeResult.status code => code == 200
  | ProbeResult.failure => false

/-- Strict recency order on rows used to model ORDER BY created_at DESC
LIMIT 1.  SQLite leaves the order of rows with equal created_at
unspecified; ties are modelled as resolved toward the larger rowid, the
most recently inserted row. -/
def recLt (a b : UploadRecord) : Bool :=
  decide (a.createdAt < b.createdAt) ||
    (decide (a.createdAt = b.createdAt) && decide (a.id < b.id))

/-- The WHERE clause of the two find queries: the key predicate together
with is_valid = 1. -/
def matchesValid (p : UploadRecord → Bool) (r : UploadRecord) : Bool :=
  p r && decide (r.isValid = 1)

/-- The query SELECT * FROM uploads WHERE p AND is_valid = 1 ORDER BY
created_at DESC LIMIT 1, shared by find_by_filename and find_by_hash. -/
def selectLatest (p : UploadRecord → Bool) : List UploadRecord → Option UploadRecord
  | [] => none
  | r :: rs =>
    if matchesValid p r then
      match selectLatest p rs with
      | none => some r
      | some b => if recLt r b then some b else some r
    else selectLatest p rs

/-- Helper: an UPDATE statement touches every row satisfying its WHERE
clause and leaves the rest unchanged. -/
def mapRows (f : UploadRecord → UploadRecord) (db : FalUploadDB) : FalUploadDB :=
  { db with rows := db.rows.map f }

/-- FalUploadDB.invalidate_record: UPDATE uploads SET is_valid = 0,
updated_at = CURRENT_TIMESTAMP WHERE id = record_id. -/
def invalidate_record (record_id : Nat) (now : Nat) (db : FalUploadDB) : FalUploadDB :=
  mapRows (fun r => if r.id = record_id then { r with isValid := 0, updatedAt := now } else r) db

/-- The UPDATE at the end of find_by_filename: SET last_verified = now,
updated_at = CURRENT_TIMESTAMP WHERE id = record_id. -/
def update_last_verified (record_id : Nat) (now : Nat) (db : FalUploadDB) : FalUploadDB :=
  mapRows (fun r => if r.id = record_id then { r with lastVerified := some now, updatedAt := now } else r) db

/-- FalUploadDB.find_by_filename.  Selects the newest valid row for the
filename; when validate_url is set and the probe fails, invalidates the
row and returns None; otherwise refreshes last_verified/updated_at
(note: the refresh runs whether or not validate_url was set) and returns
the row as fetched, i.e. before the refresh. -/
def find_by_filename (probe : String → Nat → ProbeResult) (now : Nat)
    (filename : String) (validate_url : Bool) (db : FalUploadDB) :
    Option UploadRecord × FalUploadDB :=
  match selectLatest (fun r => decide (r.filename = filename)) db.rows with
  | none => (none, db)
  | some record =>
    if validate_url && !check_url_validity probe record.url 10 then
      (none, invalidate_record record.id now db)
    else
      (some record, update_last_verified record.id now db)

/-- FalUploadDB.find_by_hash.  Same selection keyed on file_hash, with
the same dead-URL invalidation, but without any last_verified update. -/
def find_by_hash (probe : String → Nat → ProbeResult) (now : Nat)
    (file_hash : String) (validate_url : Bool) (db : FalUploadDB) :
    Option UploadRecord × FalUploadDB :=
  match selectLatest (fun r => decide (r.fileHash = some file_hash)) db.rows with
  | none => (none, db)
  | some record =>
    if validate_url && !check_url_validity probe record.url 10 then
      (none, invalidate_record record.id now db)
    else
      (some record, db)

/-- FalUploadDB.calculate_file_hash: SHA-256 of the file's bytes, or None
when reading raises; the digest itself is the filesystem oracle's
answer. -/
def calculate_file_hash (fs : FileSystem) (file_path : String) : Option String :=
  fs.fhash file_path

/-- FalUploadDB.insert_upload: computes size and hash when the path
exists (a getsize exception leaves both absent, a hashing failure leaves
only the hash absent), then INSERTs a row with is_valid defaulting to 1
and upload_date, last_verified, created_at, updated_at all stamped with
the current time; returns the new rowid. -/
def insert_upload (fs : FileSystem) (now : Nat) (filename url : String)
    (file_path : Option String) (metadata : Option String) (db : FalUploadDB) :
    Nat × FalUploadDB :=
  let sizeHash : Option Nat × Option String :=
    match file_path with
    | none => (none, none)
    | some p =>
      if fs.fexists p then
        match fs.fsize p with
        | some s => (some s, calculate_file_hash fs p)
        | none => (none, none)
      else (none, none)
  let newRec : UploadRecord :=
    { id := db.nextId, filename := filename, url := url, filePath := file_path,
      fileSize := sizeHash.1, fileHash := sizeHash.2, uploadDate := now,
      lastVerified := some now, isValid := 1, metadata := metadata,
      createdAt := now, updatedAt := now }
  (db.nextId, { rows := db.rows ++ [newRec], nextId := db.nextId + 1 })

/-- FalUploadDB.cleanup_invalid_urls: fetches up to batch_size valid rows
(SELECT ... WHERE is_valid = 1 LIMIT batch_size, no ORDER BY, modelled as
the first batch_size valid rows in rowid order), probes each prefetched
row, invalidates the dead ones and counts them. -/
def cleanup_invalid_urls (probe : String → Nat → ProbeResult) (now : Nat)
    (batch_size : Nat) (db : FalUploadDB) : Nat × FalUploadDB :=
  let records := (db.rows.filter (fun r => decide (r.isValid = 1))).take batch_size
  records.foldl
    (fun acc r =>
      if !check_url_validity probe r.url 10 then
        (acc.1 + 1, invalidate_record r.id now acc.2)
      else acc)
    (0, db)

/-- The dictionary returned by FalUploadDB.get_stats.  total_size_mb is a
floating-point rendering of total_size_bytes for display only and is not
modelled. -/
structure UploadStats where
  total_records : Nat
  valid_records : Nat
  invalid_records : Nat
  total_size_bytes : Nat
  earliest_upload : Option Nat
  latest_upload : Option Nat
deriving DecidableEq

/-- FalUploadDB.get_stats: COUNT of all rows, of is_valid = 1 rows, of
is_valid = 0 rows, SUM of file_size over valid rows with a size, and
MIN/MAX upload_date over valid rows. -/
def get_stats (db : FalUploadDB) : UploadStats :=
  let valid := db.rows.filter (fun r => decide (r.isValid = 1))
  { total_records := db.rows.length
  , valid_records := valid.length
  , invalid_records := (db.rows.filter (fun r => decide (r.isValid = 0))).length
  , total_size_bytes := (valid.filterMap (fun r => r.fileSize)).foldl (· + ·) 0
  , earliest_upload :=
      valid.foldl (fun acc r =>
        match acc with
        | none => some r.uploadDate
        | some m => some (Nat.min m r.uploadDate)) none
  , latest_upload :=
      valid.foldl (fun acc r =>
        match acc with
        | none => some r.uploadDate
        | some m => some (Nat.max m r.uploadDate)) none }

/-- FalUploadDB.migrate_from_json: for each filename/url entry of the
legacy mapping, look the filename up with validate_url=False and insert
only on a miss, counting the inserts.  The probe oracle is threaded but
never consulted because validation is off. -/
def migrate_from_json (probe : String → Nat → ProbeResult) (fs : FileSystem)
    (now : Nat) (entries : List (String × String)) (db : FalUploadDB) :
    Nat × FalUploadDB :=
  entries.foldl
    (fun acc e =>
      match find_by_filename probe now e.1 false acc.2 with
      | (some _, db1) => (acc.1, db1)
      | (none, db1) => (acc.1 + 1, (insert_upload fs now e.1 e.2 none none db1).2))
    (0, db)

/-- os.path.basename: the characters after the last path separator. -/
def basename (p : String) : String :=
  String.mk (p.toList.foldl (fun acc c => if c = '/' then [] else acc ++ [c]) [])

/-- check_file_in_database in fal_upload_wrapper.py: filename lookup
first (with URL validation), then, when the file exists and hashes, a
hash lookup; returns the (found, record) pair together with the
resulting database state. -/
def check_file_in_database (probe : String → Nat → ProbeResult) (fs : FileSystem)
    (now : Nat) (file_path : String) (db : FalUploadDB) :
    Bool × Option UploadRecord × FalUploadDB :=
  let file_name := basename file_path
  match find_by_filename probe now file_name true db with
  | (some record, db1) => (true, some record, db1)
  | (none, db1) =>
    if fs.fexists file_path then
      match calculate_file_hash fs file_path with
      | some file_hash =>
        match find_by_hash probe now file_hash true db1 with
        | (some record, db2) => (true, some record, db2)
        | (none, db2) => (false, none, db2)
      | none => (false, none, db1)
    else (false, none, db1)

/-- upload_with_database_wrapper in fal_upload_wrapper.py.
script_exists models the existence check on local_fal_upload.py,
uploader_result the URL extracted from that external script's output
(none on any failure), insert_fails whether the final insert_upload
raises (its except branch prints a warning and the upload is still
reported successful), and force_upload the --force-upload flag.
Returns the URL handed to the caller and the final database state. -/
def upload_with_database_wrapper (probe : String → Nat → ProbeResult)
    (fs : FileSystem) (now : Nat) (script_exists : Bool)
    (uploader_result : Option String) (insert_fails : Bool)
    (force_upload : Bool) (file_path : String) (db : FalUploadDB) :
    Option String × FalUploadDB :=
  if !fs.fexists file_path then (none, db)
  else if !script_exists then (none, db)
  else
    let file_name := basename file_path
    let doUpload := fun (db1 : FalUploadDB) =>
      match uploader_result with
      | none => ((none : Option String), db1)
      | some url =>
        if insert_fails then (some url, db1)
        else (some url, (insert_upload fs now file_name url (some file_path) none db1).2)
    match check_file_in_database probe fs now file_path db with
    | (true, some record, db1) =>
      if force_upload then doUpload db1 else (some record.url, db1)
    | (_, _, db1) => doUpload db1

/-- One invocation of a core operation with its oracles and the wall
clock at call time.  stats and search_uploads only issue SELECT
statements, so their state effect is the identity. -/
inductive Op where
  | insert (fs : FileSystem) (now : Nat) (filename url : String)
      (file_path : Option String) (metadata : Option String) : Op
  | findFilename (probe : String → Nat → ProbeResult) (now : Nat)
      (filename : String) (validate_url : Bool) : Op
  | findHash (probe : String → Nat → ProbeResult) (now : Nat)
      (file_hash : String) (validate_url : Bool) : Op
  | invalidate (now : Nat) (record_id : Nat) : Op
  | sweep (probe : String → Nat → ProbeResult) (now : Nat) (batch_size : Nat) : Op
  | stats : Op
  | search (query : String) (lim : Nat) : Op
  | migrate (probe : String → Nat → ProbeResult) (fs : FileSystem) (now : Nat)
      (entries : List (String × String)) : Op

/-- State effect of one core operation. -/
def applyOp (op : Op) (db : FalUploadDB) : FalUploadDB :=
  match op with
  | Op.insert fs now fn url fp md => (insert_upload fs now fn url fp md db).2
  | Op.findFilename probe now fn v => (find_by_filename probe now fn v db).2
  | Op.findHash probe now h v => (find_by_hash probe now h v db).2
  | Op.invalidate now rid => invalidate_record rid now db
  | Op.sweep probe now b => (cleanup_invalid_urls probe now b db).2
  | Op.stats => db
  | Op.search _ _ => db
  | Op.migrate probe fs now entries => (migrate_from_json probe fs now entries db).2

/-- Run a sequence of core operations from a given state. -/
def runFrom (db : FalUploadDB) (ops : List Op) : FalUploadDB :=
  ops.foldl (fun d o => applyOp o d) db

/-- Run a sequence of core operations from a fresh database. -/
def runOps (ops : List Op) : FalUploadDB :=
  runFrom initDB ops

/-- Well-formedness maintained by the storage engine: rowids are below
the AUTOINCREMENT counter and pairwise distinct. -/
def WF (db : FalUploadDB) : Prop :=
  (∀ r ∈ db.rows, r.id < db.nextId) ∧
    db.rows.Pairwise (fun a b => a.id ≠ b.id)

/-- Characterisation of the recency order as linear arithmetic. -/
theorem recLt_spec (a b : UploadRecord) :
    recLt a b = true ↔
      a.createdAt < b.createdAt ∨ (a.createdAt = b.createdAt ∧ a.id < b.id) := by
  simp [recLt]

/-- Characterisation of the WHERE clause. -/
theorem matchesValid_spec (p : UploadRecord → Bool) (r : UploadRecord) :
    matchesValid p r = true ↔ p r = true ∧ r.isValid = 1 := by
  simp [matchesValid]

/-- A row returned by the shared SELECT is a matching valid row of the
table. -/
theorem selectLatest_mem {p : UploadRecord → Bool} {rows : List UploadRecord}
    {r : UploadRecord} (h : selectLatest p rows = some r) :
    r ∈ rows ∧ matchesValid p r = true := by
  induction rows with
  | nil => simp [selectLatest] at h
  | cons a rs ih =>
    cases hrest : selectLatest p rs with
    | none =>
      simp only [selectLatest, hrest] at h
      by_cases hm : matchesValid p a = true
      · rw [if_pos hm] at h
        cases h
        exact ⟨List.mem_cons_self _ _, hm⟩
      · rw [if_neg hm] at h
        cases h
    | some b =>
      simp only [selectLatest, hrest] at h
      by_cases hm : matchesValid p a = true
      · rw [if_pos hm] at h
        by_cases hlt : recLt a b = true
        · rw [if_pos hlt] at h
          cases h
          rcases ih hrest with ⟨hmem, hmv⟩
          exact ⟨List.mem_cons_of_mem _ hmem, hmv⟩
        · rw [if_neg hlt] at h
          cases h
          exact ⟨List.mem_cons_self _ _, hm⟩
      · rw [if_neg hm] at h
        cases h
        rcases ih hrest with ⟨hmem, hmv⟩
        exact ⟨List.mem_cons_of_mem _ hmem, hmv⟩

/-- The shared SELECT misses exactly when the table has no matching valid
row. -/
theorem selectLatest_eq_none_iff (p : UploadRecord → Bool) (rows : List UploadRecord) :
    selectLatest p rows = none ↔ ∀ r ∈ rows, matchesValid p r = false := by
  induction rows with
  | nil => simp [selectLatest]
  | cons a rs ih =>
    cases hrest : selectLatest p rs with
    | none =>
      have hall := ih.mp hrest
      simp only [selectLatest, hrest]
      by_cases hm : matchesValid p a = true
      · rw [if_pos hm]
        constructor
        · intro h; cases h
        · intro h
          have := h a (List.mem_cons_self _ _)
          rw [hm] at this
          cases this
      · rw [if_neg hm]
        constructor
        · intro _ r hr
          rcases List.mem_cons.mp hr with heq | hmem
          · subst heq; exact Bool.eq_false_iff.mpr hm
          · exact hall r hmem
        · intro _; rfl
    | some b =>
      have hbmem := selectLatest_mem hrest
      simp only [selectLatest, hrest]
      by_cases hm : matchesValid p a = true
      · rw [if_pos hm]
        constructor
        · intro h
          by_cases hlt : recLt a b = true
          · rw [if_pos hlt] at h; cases h
          · rw [if_neg hlt] at h; cases h
        · intro h
          have := h a (List.mem_cons_self _ _)
          rw [hm] at this
          cases this
      · rw [if_neg hm]
        constructor
        · intro h; cases h
        · intro h
          have := h b (List.mem_cons_of_mem _ hbmem.1)
          rw [hbmem.2] at this
          cases this

/-- Negated characterisation of the recency order. -/
theorem recLt_eq_false_iff (a b : UploadRecord) :
    recLt a b = false ↔
      ¬(a.createdAt < b.createdAt ∨ (a.createdAt = b.createdAt ∧ a.id < b.id)) := by
  rw [Bool.eq_false_iff, Ne, recLt_spec]

/-- No matching valid row is strictly newer than the row the shared
SELECT returns. -/
theorem selectLatest_maximal {p : UploadRecord → Bool} :
    ∀ {rows : List UploadRecord} {r : UploadRecord},
      selectLatest p rows = some r →
      ∀ r' ∈ rows, matchesValid p r' = true → recLt r r' = false := by
  intro rows
  induction rows with
  | nil => intro r h; simp [selectLatest] at h
  | cons a rs ih =>
    intro r h r' hr' hmv'
    cases hrest : selectLatest p rs with
    | none =>
      simp only [selectLatest, hrest] at h
      by_cases hm : matchesValid p a = true
      · rw [if_pos hm] at h
        cases h
        rcases List.mem_cons.mp hr' with heq | hmem
        · subst heq
          rw [recLt_eq_false_iff]
          omega
        · have := (selectLatest_eq_none_iff p rs).mp hrest r' hmem
          rw [hmv'] at this
          cases this
      · rw [if_neg hm] at h
        cases h
    | some b =>
      simp only [selectLatest, hrest] at h
      by_cases hm : matchesValid p a = true
      · rw [if_pos hm] at h
        by_cases hlt : recLt a b = true
        · rw [if_pos hlt] at h
          cases h
          rcases List.mem_cons.mp hr' with heq | hmem
          · subst heq
            rw [recLt_eq_false_iff]
            rw [recLt_spec] at hlt
            omega
          · exact ih hrest r' hmem hmv'
        · rw [if_neg hlt] at h
          cases h
          rcases List.mem_cons.mp hr' with heq | hmem
          · subst heq
            rw [recLt_eq_false_iff]
            omega
          · have hb := ih hrest r' hmem hmv'
            rw [recLt_eq_false_iff] at hb ⊢
            rw [recLt_spec] at hlt
            omega
      · rw [if_neg hm] at h
        cases h
        rcases List.mem_cons.mp hr' with heq | hmem
        · subst heq
          exact absurd hmv' hm
        · exact ih hrest r' hmem hmv'

/-- When the table has some matching valid row, the shared SELECT hits. -/
theorem selectLatest_isSome {p : UploadRecord → Bool} {rows : List UploadRecord}
    {r : UploadRecord} (hr : r ∈ rows) (hmv : matchesValid p r = true) :
    ∃ b, selectLatest p rows = some b := by
  cases h : selectLatest p rows with
  | none =>
    have := (selectLatest_eq_none_iff p rows).mp h r hr
    rw [hmv] at this
    cases this
  | some b => exact ⟨b, rfl⟩

/-- When one matching valid row is strictly newer than every other
matching valid row, the shared SELECT returns exactly it. -/
theorem selectLatest_eq_of_strict_max {p : UploadRecord → Bool}
    {rows : List UploadRecord} {rstar : UploadRecord} (hr : rstar ∈ rows)
    (hmv : matchesValid p rstar = true)
    (hmax : ∀ r' ∈ rows, matchesValid p r' = true → r' = rstar ∨ recLt r' rstar = true) :
    selectLatest p rows = some rstar := by
  rcases selectLatest_isSome hr hmv with ⟨b, hb⟩
  rcases selectLatest_mem hb with ⟨hbmem, hbmv⟩
  have hnotlt := selectLatest_maximal hb rstar hr hmv
  rcases hmax b hbmem hbmv with heq | hlt
  · rw [hb, heq]
  · rw [← Bool.not_eq_true, recLt_spec] at hnotlt
    rw [recLt_spec] at hlt
    omega

/-- Characterisation of a hit of find_by_filename: the returned row is
the one the SELECT chose, and when validation was on its URL passed the
probe. -/
theorem find_by_filename_some {probe : String → Nat → ProbeResult} {now : Nat}
    {fn : String} {v : Bool} {db : FalUploadDB} {r : UploadRecord}
    (h : (find_by_filename probe now fn v db).1 = some r) :
    selectLatest (fun r0 => decide (r0.filename = fn)) db.rows = some r ∧
      (v = true → check_url_validity probe r.url 10 = true) := by
  cases hsel : selectLatest (fun r0 => decide (r0.filename = fn)) db.rows with
  | none =>
    simp only [find_by_filename, hsel] at h
    cases h
  | some record =>
    simp only [find_by_filename, hsel] at h
    by_cases hv : (v && !check_url_validity probe record.url 10) = true
    · rw [if_pos hv] at h
      simp at h
    · rw [if_neg hv] at h
      simp at h
      subst h
      refine ⟨rfl, fun hvt => ?_⟩
      subst hvt
      cases hcheck : check_url_validity probe record.url 10 with
      | true => rfl
      | false => rw [hcheck] at hv; simp at hv

/-- find_by_filename misses (and leaves the table unchanged) when there
is no valid row for the filename. -/
theorem find_by_filename_none_of_no_match {probe : String → Nat → ProbeResult}
    {now : Nat} {fn : String} {v : Bool} {db : FalUploadDB}
    (h : ∀ r' ∈ db.rows, r'.filename = fn → r'.isValid ≠ 1) :
    find_by_filename probe now fn v db = (none, db) := by
  have hsel : selectLatest (fun r0 => decide (r0.filename = fn)) db.rows = none := by
    rw [selectLatest_eq_none_iff]
    intro r hr
    rw [Bool.eq_false_iff, Ne, matchesValid_spec]
    rintro ⟨hp, hval⟩
    rw [decide_eq_true_eq] at hp
    exact h r hr hp hval
  simp only [find_by_filename, hsel]

/-- With validation off, find_by_filename hits whenever some valid row
carries the filename. -/
theorem find_by_filename_some_of_match (probe : String → Nat → ProbeResult)
    (now : Nat) {fn : String} {db : FalUploadDB} {r : UploadRecord}
    (hr : r ∈ db.rows) (hfn : r.filename = fn) (hval : r.isValid = 1) :
    ∃ b, (find_by_filename probe now fn false db).1 = some b := by
  have hmv : matchesValid (fun r0 => decide (r0.filename = fn)) r = true := by
    rw [matchesValid_spec, decide_eq_true_eq]
    exact ⟨hfn, hval⟩
  rcases selectLatest_isSome hr hmv with ⟨b, hb⟩
  refine ⟨b, ?_⟩
  simp only [find_by_filename, hb, Bool.false_and, Bool.not_eq_true]
  simp

/-- Characterisation of a hit of find_by_hash. -/
theorem find_by_hash_some {probe : String → Nat → ProbeResult} {now : Nat}
    {hsh : String} {v : Bool} {db : FalUploadDB} {r : UploadRecord}
    (h : (find_by_hash probe now hsh v db).1 = some r) :
    selectLatest (fun r0 => decide (r0.fileHash = some hsh)) db.rows = some r ∧
      (v = true → check_url_validity probe r.url 10 = true) := by
  cases hsel : selectLatest (fun r0 => decide (r0.fileHash = some hsh)) db.rows with
  | none =>
    simp only [find_by_hash, hsel] at h
    cases h
  | some record =>
    simp only [find_by_hash, hsel] at h
    by_cases hv : (v && !check_url_validity probe record.url 10) = true
    · rw [if_pos hv] at h
      simp at h
    · rw [if_neg hv] at h
      simp at h
      subst h
      refine ⟨rfl, fun hvt => ?_⟩
      subst hvt
      cases hcheck : check_url_validity probe record.url 10 with
      | true => rfl
      | false => rw [hcheck] at hv; simp at hv

/-- find_by_hash misses (and leaves the table unchanged) when there is
no valid row with the hash. -/
theorem find_by_hash_none_of_no_match {probe : String → Nat → ProbeResult}
    {now : Nat} {hsh : String} {v : Bool} {db : FalUploadDB}
    (h : ∀ r' ∈ db.rows, r'.fileHash = some hsh → r'.isValid ≠ 1) :
    find_by_hash probe now hsh v db = (none, db) := by
  have hsel : selectLatest (fun r0 => decide (r0.fileHash = some hsh)) db.rows = none := by
    rw [selectLatest_eq_none_iff]
    intro r hr
    rw [Bool.eq_false_iff, Ne, matchesValid_spec]
    rintro ⟨hp, hval⟩
    rw [decide_eq_true_eq] at hp
    exact h r hr hp hval
  simp only [find_by_hash, hsel]

/-- With validation off, find_by_hash hits whenever some valid row
carries the hash. -/
theorem find_by_hash_some_of_match (probe : String → Nat → ProbeResult)
    (now : Nat) {hsh : String} {db : FalUploadDB} {r : UploadRecord}
    (hr : r ∈ db.rows) (hh : r.fileHash = some hsh) (hval : r.isValid = 1) :
    ∃ b, (find_by_hash probe now hsh false db).1 = some b := by
  have hmv : matchesValid (fun r0 => decide (r0.fileHash = some hsh)) r = true := by
    rw [matchesValid_spec, decide_eq_true_eq]
    exact ⟨hh, hval⟩
  rcases selectLatest_isSome hr hmv with ⟨b, hb⟩
  refine ⟨b, ?_⟩
  simp only [find_by_hash, hb, Bool.false_and, Bool.not_eq_true]
  simp

/-- A probe oracle for which every URL is live (HTTP 200). -/
def probeLive : String → Nat → ProbeResult := fun _ _ => ProbeResult.status 200

/-- A probe oracle for which every request fails. -/
def probeFail : String → Nat → ProbeResult := fun _ _ => ProbeResult.failure

/-- Concrete fixture: a valid row. -/
def recW1 : UploadRecord :=
  { id := 1, filename := "a", url := "u1", filePath := none, fileSize := none,
    fileHash := some "h", uploadDate := 1, lastVerified := some 5, isValid := 1,
    metadata := none, createdAt := 1, updatedAt := 1 }

/-- Concrete fixture: a newer but invalidated row for the same keys. -/
def recW2 : UploadRecord :=
  { id := 2, filename := "a", url := "u2", filePath := none, fileSize := none,
    fileHash := some "h", uploadDate := 2, lastVerified := none, isValid := 0,
    metadata := none, createdAt := 2, updatedAt := 2 }

/-- Concrete fixture table holding recW1 and recW2. -/
def dbW : FalUploadDB := { rows := [recW1, recW2], nextId := 3 }

/-- C1: for every table state and every key, find_by_filename and
find_by_hash only ever return a record of the table that matches the
key, has isValid = 1 (never an invalidated one) and is most recently
created among the matching valid records; they return absent whenever no
matching valid record exists; and in the pure-query mode
(validate_url = false) they return absent exactly when no matching valid
record exists. -/
theorem claim_C1 (probe : String → Nat → ProbeResult) (now : Nat)
    (fn hsh : String) (v : Bool) (db : FalUploadDB) :
    (∀ r, (find_by_filename probe now fn v db).1 = some r →
       r ∈ db.rows ∧ r.filename = fn ∧ r.isValid = 1 ∧
       ∀ r' ∈ db.rows, r'.filename = fn → r'.isValid = 1 →
         r'.createdAt ≤ r.createdAt) ∧
    ((∀ r' ∈ db.rows, r'.filename = fn → r'.isValid ≠ 1) →
       (find_by_filename probe now fn v db).1 = none) ∧
    (v = false →
       ((find_by_filename probe now fn v db).1 = none ↔
         ∀ r' ∈ db.rows, r'.filename = fn → r'.isValid ≠ 1)) ∧
    (∀ r, (find_by_hash probe now hsh v db).1 = some r →
       r ∈ db.rows ∧ r.fileHash = some hsh ∧ r.isValid = 1 ∧
       ∀ r' ∈ db.rows, r'.fileHash = some hsh → r'.isValid = 1 →
         r'.createdAt ≤ r.createdAt) ∧
    ((∀ r' ∈ db.rows, r'.fileHash = some hsh → r'.isValid ≠ 1) →
       (find_by_hash probe now hsh v db).1 = none) ∧
    (v = false →
       ((find_by_hash probe now hsh v db).1 = none ↔
         ∀ r' ∈ db.rows, r'.fileHash = some hsh → r'.isValid ≠ 1)) := by
  refine ⟨?_, ?_, ?_, ?_, ?_, ?_⟩
  · intro r h
    rcases find_by_filename_some h with ⟨hsel, -⟩
    rcases selectLatest_mem hsel with ⟨hmem, hmv⟩
    rw [matchesValid_spec, decide_eq_true_eq] at hmv
    refine ⟨hmem, hmv.1, hmv.2, ?_⟩
    intro r' hr' hfn' hval'
    have hmax := selectLatest_maximal hsel r' hr'
      (by rw [matchesValid_spec, decide_eq_true_eq]; exact ⟨hfn', hval'⟩)
    rw [recLt_eq_false_iff] at hmax
    omega
  · intro hno
    rw [find_by_filename_none_of_no_match hno]
  · rintro rfl
    constructor
    · intro hnone r' hr' hfn' hval'
      rcases find_by_filename_some_of_match probe now hr' hfn' hval' with ⟨b, hb⟩
      rw [hnone] at hb
      cases hb
    · intro hno
      rw [find_by_filename_none_of_no_match hno]
  · intro r h
    rcases find_by_hash_some h with ⟨hsel, -⟩
    rcases selectLatest_mem hsel with ⟨hmem, hmv⟩
    rw [matchesValid_spec, decide_eq_true_eq] at hmv
    refine ⟨hmem, hmv.1, hmv.2, ?_⟩
    intro r' hr' hh' hval'
    have hmax := selectLatest_maximal hsel r' hr'
      (by rw [matchesValid_spec, decide_eq_true_eq]; exact ⟨hh', hval'⟩)
    rw [recLt_eq_false_iff] at hmax
    omega
  · intro hno
    rw [find_by_hash_none_of_no_match hno]
  · rintro rfl
    constructor
    · intro hnone r' hr' hh' hval'
      rcases find_by_hash_some_of_match probe now hr' hh' hval' with ⟨b, hb⟩
      rw [hnone] at hb
      cases hb
    · intro hno
      rw [find_by_hash_none_of_no_match hno]

/-- Witness for C1: on the concrete two-row table the lookup returns the
valid row, which matches, is valid and dominates all valid matches. -/
theorem claim_C1_witness :
    recW1 ∈ dbW.rows ∧ recW1.filename = "a" ∧ recW1.isValid = 1 ∧
      ∀ r' ∈ dbW.rows, r'.filename = "a" → r'.isValid = 1 →
        r'.createdAt ≤ recW1.createdAt :=
  (claim_C1 probeLive 9 "a" "h" false dbW).1 recW1 (by decide)

/-- C3: the liveness check returns true exactly when the HTTP probe
yields status 200, and returns false on every failure outcome (non-200
status, or the timeout/connection/protocol exceptions modelled by
ProbeResult.failure); it is a total Bool-valued function, so no
exception reaches the caller. -/
theorem claim_C3 (probe : String → Nat → ProbeResult) (url : String) (timeout : Nat) :
    (check_url_validity probe url timeout = true ↔
      probe url timeout = ProbeResult.status 200) ∧
    (probe url timeout = ProbeResult.failure →
      check_url_validity probe url timeout = false) := by
  constructor
  · unfold check_url_validity
    cases hp : probe url timeout with
    | status c => simp
    | failure => simp
  · intro h
    unfold check_url_validity
    rw [h]

/-- Witness for C3: a failing probe yields false. -/
theorem claim_C3_witness : check_url_validity probeFail "u" 10 = false :=
  (claim_C3 probeFail "u" 10).2 rfl

/-- After invalidate_record, every row carrying the targeted id is
marked invalid. -/
theorem invalidate_record_id_invalid (i now : Nat) (db : FalUploadDB) :
    ∀ r' ∈ (invalidate_record i now db).rows, r'.id = i → r'.isValid = 0 := by
  intro r' hr' hid
  simp only [invalidate_record, mapRows, List.mem_map] at hr'
  rcases hr' with ⟨r0, hr0, rfl⟩
  by_cases h : r0.id = i
  · rw [if_pos h]
  · rw [if_neg h] at hid ⊢
    exact absurd hid h

/-- invalidate_record never changes a row's id, and keeps rows that are
already marked invalid for some id marked invalid. -/
theorem invalidate_record_zero_preserved {j : Nat} (i now : Nat) {db : FalUploadDB}
    (h : ∀ r ∈ db.rows, r.id = j → r.isValid = 0) :
    ∀ r' ∈ (invalidate_record i now db).rows, r'.id = j → r'.isValid = 0 := by
  intro r' hr' hid
  simp only [invalidate_record, mapRows, List.mem_map] at hr'
  rcases hr' with ⟨r0, hr0, rfl⟩
  by_cases hcase : r0.id = i
  · rw [if_pos hcase]
  · rw [if_neg hcase] at hid ⊢
    exact h r0 hr0 hid

/-- The last_verified refresh keeps ids and validity flags unchanged. -/
theorem update_last_verified_zero_preserved {j : Nat} (i now : Nat) {db : FalUploadDB}
    (h : ∀ r ∈ db.rows, r.id = j → r.isValid = 0) :
    ∀ r' ∈ (update_last_verified i now db).rows, r'.id = j → r'.isValid = 0 := by
  intro r' hr' hid
  simp only [update_last_verified, mapRows, List.mem_map] at hr'
  rcases hr' with ⟨r0, hr0, rfl⟩
  by_cases hcase : r0.id = i
  · rw [if_pos hcase] at hid ⊢
    exact h r0 hr0 hid
  · rw [if_neg hcase] at hid ⊢
    exact h r0 hr0 hid

/-- A dead candidate makes find_by_filename invalidate it and miss. -/
theorem find_by_filename_dead {probe : String → Nat → ProbeResult} (now : Nat)
    {fn : String} {db : FalUploadDB} {c : UploadRecord}
    (hsel : selectLatest (fun r0 => decide (r0.filename = fn)) db.rows = some c)
    (hdead : check_url_validity probe c.url 10 = false) :
    find_by_filename probe now fn true db = (none, invalidate_record c.id now db) := by
  simp only [find_by_filename, hsel, hdead]
  simp

/-- A dead candidate makes find_by_hash invalidate it and miss. -/
theorem find_by_hash_dead {probe : String → Nat → ProbeResult} (now : Nat)
    {hsh : String} {db : FalUploadDB} {c : UploadRecord}
    (hsel : selectLatest (fun r0 => decide (r0.fileHash = some hsh)) db.rows = some c)
    (hdead : check_url_validity probe c.url 10 = false) :
    find_by_hash probe now hsh true db = (none, invalidate_record c.id now db) := by
  simp only [find_by_hash, hsel, hdead]
  simp

/-- The state left by find_by_hash is the input state or the input state
with one id invalidated. -/
theorem find_by_hash_snd_cases (probe : String → Nat → ProbeResult) (now : Nat)
    (hsh : String) (v : Bool) (db : FalUploadDB) :
    (find_by_hash probe now hsh v db).2 = db ∨
      ∃ i, (find_by_hash probe now hsh v db).2 = invalidate_record i now db := by
  cases hsel : selectLatest (fun r0 => decide (r0.fileHash = some hsh)) db.rows with
  | none =>
    left
    simp only [find_by_hash, hsel]
  | some c =>
    simp only [find_by_hash, hsel]
    by_cases hv : (v && !check_url_validity probe c.url 10) = true
    · rw [if_pos hv]
      exact Or.inr ⟨c.id, rfl⟩
    · rw [if_neg hv]
      exact Or.inl rfl

/-- Resolution step 1 hit: a record found by filename is returned at
once. -/
theorem check_eq_of_found {probe : String → Nat → ProbeResult} {fs : FileSystem}
    {now : Nat} {path : String} {db db1 : FalUploadDB} {record : UploadRecord}
    (hff : find_by_filename probe now (basename path) true db = (some record, db1)) :
    check_file_in_database probe fs now path db = (true, some record, db1) := by
  simp only [check_file_in_database, hff]

/-- Resolution stops after a filename miss when the path does not
exist. -/
theorem check_eq_of_miss_noexists {probe : String → Nat → ProbeResult}
    {fs : FileSystem} {now : Nat} {path : String} {db db1 : FalUploadDB}
    (hff : find_by_filename probe now (basename path) true db = (none, db1))
    (hfe : fs.fexists path = false) :
    check_file_in_database probe fs now path db = (false, none, db1) := by
  simp only [check_file_in_database, hff, hfe]
  simp

/-- Resolution stops after a filename miss when hashing fails. -/
theorem check_eq_of_miss_nohash {probe : String → Nat → ProbeResult}
    {fs : FileSystem} {now : Nat} {path : String} {db db1 : FalUploadDB}
    (hff : find_by_filename probe now (basename path) true db = (none, db1))
    (hfe : fs.fexists path = true)
    (hch : calculate_file_hash fs path = none) :
    check_file_in_database probe fs now path db = (false, none, db1) := by
  simp only [check_file_in_database, hff, hfe, hch]
  simp

/-- Resolution step 3 hit: after a filename miss the hash lookup
returns its record. -/
theorem check_eq_of_hash_found {probe : String → Nat → ProbeResult}
    {fs : FileSystem} {now : Nat} {path hsh : String} {db db1 db2 : FalUploadDB}
    {record : UploadRecord}
    (hff : find_by_filename probe now (basename path) true db = (none, db1))
    (hfe : fs.fexists path = true)
    (hch : calculate_file_hash fs path = some hsh)
    (hfh : find_by_hash probe now hsh true db1 = (some record, db2)) :
    check_file_in_database probe fs now path db = (true, some record, db2) := by
  simp only [check_file_in_database, hff, hfe, hch, hfh]
  simp

/-- Resolution total miss through the hash path. -/
theorem check_eq_of_hash_miss {probe : String → Nat → ProbeResult}
    {fs : FileSystem} {now : Nat} {path hsh : String} {db db1 db2 : FalUploadDB}
    (hff : find_by_filename probe now (basename path) true db = (none, db1))
    (hfe : fs.fexists path = true)
    (hch : calculate_file_hash fs path = some hsh)
    (hfh : find_by_hash probe now hsh true db1 = (none, db2)) :
    check_file_in_database probe fs now path db = (false, none, db2) := by
  simp only [check_file_in_database, hff, hfe, hch, hfh]
  simp

/-- C2: resolution (check_file_in_database) never returns a record whose
URL failed the liveness probe during the call: any returned record
passed the probe; a dead filename candidate is not returned and every
row carrying its id is invalid in the state the call returns; and a dead
hash candidate likewise is not returned and ends invalidated. -/
theorem claim_C2 (probe : String → Nat → ProbeResult) (fs : FileSystem)
    (now : Nat) (path : String) (db : FalUploadDB) :
    (∀ r, (check_file_in_database probe fs now path db).2.1 = some r →
       check_url_validity probe r.url 10 = true) ∧
    (∀ c, selectLatest (fun r0 => decide (r0.filename = basename path)) db.rows = some c →
       check_url_validity probe c.url 10 = false →
       (check_file_in_database probe fs now path db).2.1 ≠ some c ∧
       ∀ r' ∈ (check_file_in_database probe fs now path db).2.2.rows,
         r'.id = c.id → r'.isValid = 0) ∧
    (∀ db1, find_by_filename probe now (basename path) true db = (none, db1) →
       fs.fexists path = true →
       ∀ hsh, calculate_file_hash fs path = some hsh →
       ∀ c, selectLatest (fun r0 => decide (r0.fileHash = some hsh)) db1.rows = some c →
       check_url_validity probe c.url 10 = false →
       (check_file_in_database probe fs now path db).2.1 ≠ some c ∧
       ∀ r' ∈ (check_file_in_database probe fs now path db).2.2.rows,
         r'.id = c.id → r'.isValid = 0) := by
  refine ⟨?_, ?_, ?_⟩
  · intro r h
    cases hff : find_by_filename probe now (basename path) true db with
    | mk o1 db1 =>
      cases o1 with
      | some record =>
        rw [check_eq_of_found hff] at h
        simp at h
        subst h
        have h1 : (find_by_filename probe now (basename path) true db).1 = some record := by
          rw [hff]
        exact (find_by_filename_some h1).2 rfl
      | none =>
        by_cases hfe : fs.fexists path = true
        · cases hch : calculate_file_hash fs path with
          | none =>
            rw [check_eq_of_miss_nohash hff hfe hch] at h
            simp at h
          | some hsh =>
            cases hfh : find_by_hash probe now hsh true db1 with
            | mk o2 db2 =>
              cases o2 with
              | some record =>
                rw [check_eq_of_hash_found hff hfe hch hfh] at h
                simp at h
                subst h
                have h2 : (find_by_hash probe now hsh true db1).1 = some record := by
                  rw [hfh]
                exact (find_by_hash_some h2).2 rfl
              | none =>
                rw [check_eq_of_hash_miss hff hfe hch hfh] at h
                simp at h
        · have hfe' : fs.fexists path = false := Bool.eq_false_iff.mpr hfe
          rw [check_eq_of_miss_noexists hff hfe'] at h
          simp at h
  · intro c hsel hdead
    have hff := find_by_filename_dead now hsel hdead
    have hcvalid : c.isValid = 1 := by
      rcases selectLatest_mem hsel with ⟨-, hmv⟩
      exact ((matchesValid_spec _ _).mp hmv).2
    have hzero := invalidate_record_id_invalid c.id now db
    by_cases hfe : fs.fexists path = true
    · cases hch : calculate_file_hash fs path with
      | none =>
        rw [check_eq_of_miss_nohash hff hfe hch]
        exact ⟨by simp, hzero⟩
      | some hsh =>
        cases hfh : find_by_hash probe now hsh true (invalidate_record c.id now db) with
        | mk o2 db2 =>
          have hdb2 : ∀ r' ∈ db2.rows, r'.id = c.id → r'.isValid = 0 := by
            rcases find_by_hash_snd_cases probe now hsh true
                (invalidate_record c.id now db) with hdb | ⟨i, hdb⟩
            · rw [hfh] at hdb
              simp at hdb
              rw [hdb]
              exact hzero
            · rw [hfh] at hdb
              simp at hdb
              rw [hdb]
              exact invalidate_record_zero_preserved i now hzero
          cases o2 with
          | some record =>
            rw [check_eq_of_hash_found hff hfe hch hfh]
            constructor
            · simp only [ne_eq, Prod.snd, Prod.fst, Option.some.injEq]
              intro heq
              subst heq
              have h2 : (find_by_hash probe now hsh true
                  (invalidate_record record.id now db)).1 = some record := by rw [hfh]
              rcases selectLatest_mem (find_by_hash_some h2).1 with ⟨hmem2, hmv2⟩
              have hval2 : record.isValid = 1 := ((matchesValid_spec _ _).mp hmv2).2
              have hz := hzero record hmem2 rfl
              omega
            · exact hdb2
          | none =>
            rw [check_eq_of_hash_miss hff hfe hch hfh]
            exact ⟨by simp, hdb2⟩
    · have hfe' : fs.fexists path = false := Bool.eq_false_iff.mpr hfe
      rw [check_eq_of_miss_noexists hff hfe']
      exact ⟨by simp, hzero⟩
  · intro db1 hff hfe hsh hch c hsel2 hdead
    have hfh := find_by_hash_dead now hsel2 hdead
    rw [check_eq_of_hash_miss hff hfe hch hfh]
    exact ⟨by simp, invalidate_record_id_invalid c.id now db1⟩

/-- An oracle for a filesystem with no readable files. -/
def fsEmpty : FileSystem :=
  { fexists := fun _ => false, fsize := fun _ => none, fhash := fun _ => none }

/-- A one-row table holding the valid fixture row. -/
def dbW1 : FalUploadDB := { rows := [recW1], nextId := 2 }

/-- Witness for C2: with an all-failing probe, resolving the fixture's
filename does not return the stored record and leaves it invalidated. -/
theorem claim_C2_witness :
    (check_file_in_database probeFail fsEmpty 7 "a" dbW1).2.1 ≠ some recW1 ∧
      ∀ r' ∈ (check_file_in_database probeFail fsEmpty 7 "a" dbW1).2.2.rows,
        r'.id = recW1.id → r'.isValid = 0 :=
  (claim_C2 probeFail fsEmpty 7 "a" dbW1).2.1 recW1 (by decide) (by decide)

/-- How one core operation may relate an old table state to a new one:
the counter never decreases, and every row of the new state either stems
from an old row with the same id whose validity flag was kept or zeroed,
or is a fresh row (id at or above the old counter) whose flag is 0 or
1. -/
def Evolves (db db' : FalUploadDB) : Prop :=
  db.nextId ≤ db'.nextId ∧
  ∀ r' ∈ db'.rows,
    (∃ r ∈ db.rows, r'.id = r.id ∧ (r'.isValid = r.isValid ∨ r'.isValid = 0)) ∨
    ((r'.isValid = 1 ∨ r'.isValid = 0) ∧ db.nextId ≤ r'.id)

theorem Evolves_refl (db : FalUploadDB) : Evolves db db :=
  ⟨le_refl _, fun r' hr' => Or.inl ⟨r', hr', rfl, Or.inl rfl⟩⟩

theorem Evolves_trans {a b c : FalUploadDB} (h1 : Evolves a b) (h2 : Evolves b c) :
    Evolves a c := by
  refine ⟨le_trans h1.1 h2.1, ?_⟩
  intro r'' hr''
  rcases h2.2 r'' hr'' with ⟨r', hr', hid, hval⟩ | ⟨hval, hle⟩
  · rcases h1.2 r' hr' with ⟨r, hr, hid', hval'⟩ | ⟨hval', hle'⟩
    · refine Or.inl ⟨r, hr, hid.trans hid', ?_⟩
      rcases hval with h | h
      · rcases hval' with h' | h'
        · exact Or.inl (h.trans h')
        · exact Or.inr (h.trans h')
      · exact Or.inr h
    · refine Or.inr ⟨?_, ?_⟩
      · rcases hval with h | h
        · rcases hval' with h' | h'
          · exact Or.inl (h.trans h')
          · exact Or.inr (h.trans h')
        · exact Or.inr h
      · rw [hid]
        exact hle'
  · exact Or.inr ⟨hval, le_trans h1.1 hle⟩

theorem Evolves_mapRows {f : UploadRecord → UploadRecord}
    (hid : ∀ r, (f r).id = r.id)
    (hval : ∀ r, (f r).isValid = r.isValid ∨ (f r).isValid = 0)
    (db : FalUploadDB) : Evolves db (mapRows f db) := by
  refine ⟨le_refl _, ?_⟩
  intro r' hr'
  simp only [mapRows, List.mem_map] at hr'
  rcases hr' with ⟨r0, hr0, rfl⟩
  exact Or.inl ⟨r0, hr0, hid r0, hval r0⟩

theorem Evolves_invalidate (rid now : Nat) (db : FalUploadDB) :
    Evolves db (invalidate_record rid now db) :=
  Evolves_mapRows
    (fun r => by by_cases hc : r.id = rid <;> simp [hc])
    (fun r => by by_cases hc : r.id = rid <;> simp [hc]) db

theorem Evolves_update (rid now : Nat) (db : FalUploadDB) :
    Evolves db (update_last_verified rid now db) :=
  Evolves_mapRows
    (fun r => by by_cases hc : r.id = rid <;> simp [hc])
    (fun r => by by_cases hc : r.id = rid <;> simp [hc]) db

theorem Evolves_insert (fs : FileSystem) (now : Nat) (fn url : String)
    (fp : Option String) (md : Option String) (db : FalUploadDB) :
    Evolves db (insert_upload fs now fn url fp md db).2 := by
  refine ⟨Nat.le_succ _, ?_⟩
  intro r' hr'
  simp only [insert_upload, List.mem_append, List.mem_singleton] at hr'
  rcases hr' with hmem | rfl
  · exact Or.inl ⟨r', hmem, rfl, Or.inl rfl⟩
  · exact Or.inr ⟨Or.inl rfl, le_refl _⟩

theorem Evolves_find_by_filename (probe : String → Nat → ProbeResult) (now : Nat)
    (fn : String) (v : Bool) (db : FalUploadDB) :
    Evolves db (find_by_filename probe now fn v db).2 := by
  cases hsel : selectLatest (fun r0 => decide (r0.filename = fn)) db.rows with
  | none =>
    simp only [find_by_filename, hsel]
    exact Evolves_refl db
  | some c =>
    simp only [find_by_filename, hsel]
    by_cases hv : (v && !check_url_validity probe c.url 10) = true
    · rw [if_pos hv]
      exact Evolves_invalidate c.id now db
    · rw [if_neg hv]
      exact Evolves_update c.id now db

theorem Evolves_find_by_hash (probe : String → Nat → ProbeResult) (now : Nat)
    (hsh : String) (v : Bool) (db : FalUploadDB) :
    Evolves db (find_by_hash probe now hsh v db).2 := by
  rcases find_by_hash_snd_cases probe now hsh v db with hdb | ⟨i, hdb⟩
  · rw [hdb]
    exact Evolves_refl db
  · rw [hdb]
    exact Evolves_invalidate i now db

theorem Evolves_cleanup_fold (probe : String → Nat → ProbeResult) (now : Nat)
    (rs : List UploadRecord) :
    ∀ acc : Nat × FalUploadDB,
      Evolves acc.2
        ((rs.foldl
          (fun acc r =>
            if !check_url_validity probe r.url 10 then
              (acc.1 + 1, invalidate_record r.id now acc.2)
            else acc)
          acc).2) := by
  induction rs with
  | nil => exact fun acc => Evolves_refl _
  | cons a rs ih =>
    intro acc
    simp only [List.foldl_cons]
    by_cases hc : (!check_url_validity probe a.url 10) = true
    · rw [if_pos hc]
      exact Evolves_trans (Evolves_invalidate a.id now acc.2)
        (ih (acc.1 + 1, invalidate_record a.id now acc.2))
    · rw [if_neg hc]
      exact ih acc

theorem Evolves_cleanup (probe : String → Nat → ProbeResult) (now batch : Nat)
    (db : FalUploadDB) :
    Evolves db (cleanup_invalid_urls probe now batch db).2 := by
  simp only [cleanup_invalid_urls]
  exact Evolves_cleanup_fold probe now
    ((db.rows.filter (fun r => decide (r.isValid = 1))).take batch) (0, db)

theorem Evolves_migrate_fold (probe : String → Nat → ProbeResult) (fs : FileSystem)
    (now : Nat) (entries : List (String × String)) :
    ∀ acc : Nat × FalUploadDB,
      Evolves acc.2
        ((entries.foldl
          (fun acc e =>
            match find_by_filename probe now e.1 false acc.2 with
            | (some _, db1) => (acc.1, db1)
            | (none, db1) => (acc.1 + 1, (insert_upload fs now e.1 e.2 none none db1).2))
          acc).2) := by
  induction entries with
  | nil => exact fun acc => Evolves_refl _
  | cons e es ih =>
    intro acc
    simp only [List.foldl_cons]
    cases hf : find_by_filename probe now e.1 false acc.2 with
    | mk o1 db1 =>
      have h1 : Evolves acc.2 db1 := by
        have h0 := Evolves_find_by_filename probe now e.1 false acc.2
        rw [hf] at h0
        exact h0
      cases o1 with
      | some r =>
        simp only [hf]
        exact Evolves_trans h1 (ih (acc.1, db1))
      | none =>
        simp only [hf]
        exact Evolves_trans h1
          (Evolves_trans (Evolves_insert fs now e.1 e.2 none none db1)
            (ih (acc.1 + 1, (insert_upload fs now e.1 e.2 none none db1).2)))

theorem Evolves_migrate (probe : String → Nat → ProbeResult) (fs : FileSystem)
    (now : Nat) (entries : List (String × String)) (db : FalUploadDB) :
    Evolves db (migrate_from_json probe fs now entries db).2 :=
  Evolves_migrate_fold probe fs now entries (0, db)

theorem Evolves_applyOp (op : Op) (db : FalUploadDB) : Evolves db (applyOp op db) := by
  cases op with
  | insert fs now fn url fp md => exact Evolves_insert fs now fn url fp md db
  | findFilename probe now fn v => exact Evolves_find_by_filename probe now fn v db
  | findHash probe now h v => exact Evolves_find_by_hash probe now h v db
  | invalidate now rid => exact Evolves_invalidate rid now db
  | sweep probe now b => exact Evolves_cleanup probe now b db
  | stats => exact Evolves_refl db
  | search q l => exact Evolves_refl db
  | migrate probe fs now entries => exact Evolves_migrate probe fs now entries db

theorem Evolves_runFrom (ops : List Op) : ∀ db, Evolves db (runFrom db ops) := by
  induction ops with
  | nil => exact fun db => Evolves_refl db
  | cons o os ih =>
    intro db
    exact Evolves_trans (Evolves_applyOp o db) (ih (applyOp o db))

/-- In a table whose rowids are pairwise distinct, rows are determined
by their id. -/
theorem id_unique_of_pairwise {rows : List UploadRecord}
    (hp : rows.Pairwise (fun a b => a.id ≠ b.id)) :
    ∀ a ∈ rows, ∀ b ∈ rows, a.id = b.id → a = b := by
  induction rows with
  | nil => intro a ha; cases ha
  | cons x xs ih =>
    intro a ha b hb heq
    rcases List.pairwise_cons.mp hp with ⟨hx, hxs⟩
    rcases List.mem_cons.mp ha with rfl | ha'
    · rcases List.mem_cons.mp hb with rfl | hb'
      · rfl
      · exact absurd heq (hx b hb')
    · rcases List.mem_cons.mp hb with rfl | hb'
      · exact absurd heq.symm (hx a ha')
      · exact ih hxs a ha' b hb' heq

/-- C5: invalidation is monotonic.  Starting from any well-formed table
state in which a record is marked invalid, no sequence of core
operations (insert, find, invalidate, sweep, stats, search, migrate)
ever yields a state in which a row with that record's id is valid
again. -/
theorem claim_C5 (db : FalUploadDB) (ops : List Op) (r : UploadRecord)
    (hwf : WF db) (hr : r ∈ db.rows) (hinv : r.isValid ≠ 1) :
    ∀ r' ∈ (runFrom db ops).rows, r'.id = r.id → r'.isValid ≠ 1 := by
  intro r' hr' hid
  rcases (Evolves_runFrom ops db).2 r' hr' with ⟨r0, hr0, hid0, hval0⟩ | ⟨hval0, hle⟩
  · have hr0r : r0 = r :=
      id_unique_of_pairwise hwf.2 r0 hr0 r hr (hid0.symm.trans hid)
    subst hr0r
    rcases hval0 with hsame | hzero
    · rw [hsame]
      exact hinv
    · rw [hzero]
      decide
  · exfalso
    have hb := hwf.1 r hr
    omega

/-- A short operation sequence used by the monotonicity witness. -/
def opsW : List Op :=
  [Op.insert fsEmpty 5 "c" "u3" none none,
   Op.findFilename probeLive 6 "a" true,
   Op.invalidate 7 1,
   Op.sweep probeLive 8 10]

/-- Witness for C5: after running the concrete sequence, every row of
the final state carrying the invalidated fixture row's id is still not
valid. -/
theorem claim_C5_witness :
    ((runFrom dbW opsW).rows.filter (fun r0 => decide (r0.id = recW2.id))).all
        (fun r0 => decide (r0.isValid ≠ 1)) = true := by
  rw [List.all_eq_true]
  intro r0 hr0
  rw [decide_eq_true_eq]
  have hmem := List.mem_filter.mp hr0
  have hid := hmem.2
  rw [decide_eq_true_eq] at hid
  exact claim_C5 dbW opsW recW2 (by constructor <;> decide) (by decide) (by decide)
    r0 hmem.1 hid

/-- Splitting a 0/1-valued table's row count by the validity flag. -/
theorem count_split (rows : List UploadRecord)
    (h : ∀ r ∈ rows, r.isValid = 0 ∨ r.isValid = 1) :
    rows.length = (rows.filter (fun r => decide (r.isValid = 1))).length +
      (rows.filter (fun r => decide (r.isValid = 0))).length := by
  induction rows with
  | nil => rfl
  | cons a rs ih =>
    have ha := h a (List.mem_cons_self _ _)
    have hrs := fun r hr => h r (List.mem_cons_of_mem a hr)
    have ihr := ih hrs
    simp only [List.filter_cons, List.length_cons]
    rcases ha with h0 | h1
    · simp [h0, ihr]
      omega
    · simp [h1, ihr]
      omega

/-- C10: in every state reachable by the core operations from a fresh
database, every row's validity flag is exactly 0 or 1, and consequently
get_stats reports total_records = valid_records + invalid_records. -/
theorem claim_C10 (ops : List Op) :
    (∀ r ∈ (runOps ops).rows, r.isValid = 0 ∨ r.isValid = 1) ∧
    (get_stats (runOps ops)).total_records =
      (get_stats (runOps ops)).valid_records +
        (get_stats (runOps ops)).invalid_records := by
  have h01 : ∀ r ∈ (runOps ops).rows, r.isValid = 0 ∨ r.isValid = 1 := by
    intro r hr
    rcases (Evolves_runFrom ops initDB).2 r hr with ⟨r0, hr0, -⟩ | ⟨hval, -⟩
    · cases hr0
    · exact hval.symm
  refine ⟨h01, ?_⟩
  simp only [get_stats]
  exact count_split _ h01

/-- A short operation sequence used by the stats witness: three inserts
and one invalidation. -/
def opsW10 : List Op :=
  [Op.insert fsEmpty 1 "a" "u1" none none,
   Op.insert fsEmpty 2 "b" "u2" none none,
   Op.insert fsEmpty 3 "c" "u3" none none,
   Op.invalidate 4 2]

/-- Witness for C10 at a concrete reachable state. -/
theorem claim_C10_witness :
    (get_stats (runOps opsW10)).total_records =
      (get_stats (runOps opsW10)).valid_records +
        (get_stats (runOps opsW10)).invalid_records :=
  (claim_C10 opsW10).2

/-- Rows' last_verified values are untouched by an UPDATE whose SET
clause does not mention last_verified. -/
theorem mapRows_lastVerified {f : UploadRecord → UploadRecord}
    (h : ∀ r, (f r).lastVerified = r.lastVerified) (db : FalUploadDB) :
    (mapRows f db).rows.map (fun r0 => r0.lastVerified) =
      db.rows.map (fun r0 => r0.lastVerified) := by
  simp only [mapRows, List.map_map]
  congr 1
  funext r
  exact h r

/-- invalidate_record leaves every last_verified value unchanged. -/
theorem invalidate_record_lastVerified (rid now : Nat) (db : FalUploadDB) :
    (invalidate_record rid now db).rows.map (fun r0 => r0.lastVerified) =
      db.rows.map (fun r0 => r0.lastVerified) :=
  mapRows_lastVerified
    (fun r => by by_cases hc : r.id = rid <;> simp [hc]) db

/-- When find_by_filename returns a record, its state effect is exactly
the last_verified/updated_at refresh of that record's id. -/
theorem find_by_filename_some_state {probe : String → Nat → ProbeResult}
    {now : Nat} {fn : String} {v : Bool} {db : FalUploadDB} {r : UploadRecord}
    (h : (find_by_filename probe now fn v db).1 = some r) :
    (find_by_filename probe now fn v db).2 = update_last_verified r.id now db := by
  cases hsel : selectLatest (fun r0 => decide (r0.filename = fn)) db.rows with
  | none =>
    simp only [find_by_filename, hsel] at h
    cases h
  | some record =>
    simp only [find_by_filename, hsel] at h ⊢
    by_cases hv : (v && !check_url_validity probe record.url 10) = true
    · rw [if_pos hv] at h
      simp at h
    · rw [if_neg hv] at h ⊢
      simp at h
      subst h
      rfl

/-- When find_by_filename misses, no last_verified value changes. -/
theorem find_by_filename_none_state {probe : String → Nat → ProbeResult}
    {now : Nat} {fn : String} {v : Bool} {db : FalUploadDB}
    (h : (find_by_filename probe now fn v db).1 = none) :
    ((find_by_filename probe now fn v db).2).rows.map (fun r0 => r0.lastVerified) =
      db.rows.map (fun r0 => r0.lastVerified) := by
  cases hsel : selectLatest (fun r0 => decide (r0.filename = fn)) db.rows with
  | none =>
    simp only [find_by_filename, hsel]
  | some record =>
    simp only [find_by_filename, hsel] at h ⊢
    by_cases hv : (v && !check_url_validity probe record.url 10) = true
    · rw [if_pos hv]
      exact invalidate_record_lastVerified record.id now db
    · rw [if_neg hv] at h
      simp at h

/-- C4 is corrected by this frame theorem: last_verified is refreshed by
find_by_filename (together with updated_at) exactly on the returned
record's id, whether or not a liveness probe ran (validate_url may be
false); find_by_hash, invalidate_record and the sweep never modify any
last_verified value, even after a successful liveness confirmation; and
insert_upload stamps the new row's last_verified while keeping every
existing row's value. -/
theorem claim_C4 (probe : String → Nat → ProbeResult) (fs : FileSystem)
    (now : Nat) (fn hsh url : String) (v : Bool) (fp md : Option String)
    (rid batch : Nat) (db : FalUploadDB) :
    (∀ r, (find_by_filename probe now fn v db).1 = some r →
       (find_by_filename probe now fn v db).2 = update_last_verified r.id now db) ∧
    ((find_by_filename probe now fn v db).1 = none →
       ((find_by_filename probe now fn v db).2).rows.map (fun r0 => r0.lastVerified) =
         db.rows.map (fun r0 => r0.lastVerified)) ∧
    (((find_by_hash probe now hsh v db).2).rows.map (fun r0 => r0.lastVerified) =
       db.rows.map (fun r0 => r0.lastVerified)) ∧
    ((invalidate_record rid now db).rows.map (fun r0 => r0.lastVerified) =
       db.rows.map (fun r0 => r0.lastVerified)) ∧
    (((cleanup_invalid_urls probe now batch db).2).rows.map (fun r0 => r0.lastVerified) =
       db.rows.map (fun r0 => r0.lastVerified)) ∧
    (((insert_upload fs now fn url fp md db).2).rows.map (fun r0 => r0.lastVerified) =
       db.rows.map (fun r0 => r0.lastVerified) ++ [some now]) := by
  refine ⟨fun r h => find_by_filename_some_state h, fun h => find_by_filename_none_state h,
    ?_, invalidate_record_lastVerified rid now db, ?_, ?_⟩
  · rcases find_by_hash_snd_cases probe now hsh v db with hdb | ⟨i, hdb⟩
    · rw [hdb]
    · rw [hdb]
      exact invalidate_record_lastVerified i now db
  · have haux : ∀ (rs : List UploadRecord) (acc : Nat × FalUploadDB),
        ((rs.foldl
          (fun acc r =>
            if !check_url_validity probe r.url 10 then
              (acc.1 + 1, invalidate_record r.id now acc.2)
            else acc)
          acc).2).rows.map (fun r0 => r0.lastVerified) =
          acc.2.rows.map (fun r0 => r0.lastVerified) := by
      intro rs
      induction rs with
      | nil => intro acc; rfl
      | cons a rs ih =>
        intro acc
        simp only [List.foldl_cons]
        by_cases hc : (!check_url_validity probe a.url 10) = true
        · rw [if_pos hc]
          rw [ih (acc.1 + 1, invalidate_record a.id now acc.2)]
          exact invalidate_record_lastVerified a.id now acc.2
        · rw [if_neg hc]
          exact ih acc
    simp only [cleanup_invalid_urls]
    exact haux _ (0, db)
  · simp only [insert_upload, List.map_append]
    rfl

/-- Counterexample to C4 as stated: find_by_hash looks the fixture row
up, its URL passes the liveness probe, yet the call leaves the table
unchanged, so the row's last_verified timestamp (5) is not refreshed to
the probe time (9). -/
theorem claim_C4_counterexample :
    (find_by_hash probeLive 9 "h" true dbW1).1 = some recW1 ∧
    check_url_validity probeLive recW1.url 10 = true ∧
    (find_by_hash probeLive 9 "h" true dbW1).2 = dbW1 ∧
    recW1.lastVerified = some 5 := by
  decide

/-- Witness for the corrected C4: a validation-free filename lookup that
returns the fixture row refreshes exactly that row's last_verified. -/
theorem claim_C4_witness :
    (find_by_filename probeLive 9 "a" false dbW).2 =
      update_last_verified recW1.id 9 dbW :=
  (claim_C4 probeLive fsEmpty 9 "a" "h" "u" false none none 1 10 dbW).1 recW1 (by decide)

/-- Sequential invalidation of a list of rowids, as performed by the
sweep loop. -/
def invalidateIds (ids : List Nat) (now : Nat) (db : FalUploadDB) : FalUploadDB :=
  ids.foldl (fun d i => invalidate_record i now d) db

/-- When every prefetched row is dead, the sweep loop increments the
counter once per row and invalidates exactly the prefetched ids. -/
theorem cleanup_fold_dead_eq (probe : String → Nat → ProbeResult) (now : Nat) :
    ∀ (rs : List UploadRecord),
      (∀ r ∈ rs, check_url_validity probe r.url 10 = false) →
      ∀ (n : Nat) (d : FalUploadDB),
        rs.foldl
          (fun acc r =>
            if !check_url_validity probe r.url 10 then
              (acc.1 + 1, invalidate_record r.id now acc.2)
            else acc)
          (n, d) =
          (n + rs.length, invalidateIds (rs.map (fun r => r.id)) now d) := by
  intro rs
  induction rs with
  | nil => intro _ n d; simp [invalidateIds]
  | cons a rs ih =>
    intro hdead n d
    have ha := hdead a (List.mem_cons_self _ _)
    have hrs := fun r hr => hdead r (List.mem_cons_of_mem a hr)
    simp only [List.foldl_cons, ha, Bool.not_false, if_true]
    rw [ih hrs (n + 1) (invalidate_record a.id now d)]
    rw [show n + 1 + rs.length = n + (a :: rs).length by simp; omega]
    rfl

/-- A row that is still valid after invalidateIds stems from a valid row
whose id was not targeted. -/
theorem invalidateIds_valid_origin (now : Nat) :
    ∀ (ids : List Nat) (d : FalUploadDB),
      ∀ r' ∈ (invalidateIds ids now d).rows, r'.isValid = 1 →
        ∃ r0 ∈ d.rows, r0.id = r'.id ∧ r0.isValid = 1 ∧ r0.id ∉ ids := by
  intro ids
  induction ids with
  | nil =>
    intro d r' hr' hval
    exact ⟨r', hr', rfl, hval, by simp⟩
  | cons i is ih =>
    intro d r' hr' hval
    rcases ih (invalidate_record i now d) r' hr' hval with ⟨r1, hr1, hid1, hval1, hnotin⟩
    simp only [invalidate_record, mapRows, List.mem_map] at hr1
    rcases hr1 with ⟨r0, hr0, rfl⟩
    by_cases hc : r0.id = i
    · rw [if_pos hc] at hval1
      simp at hval1
    · rw [if_neg hc] at hid1 hval1 hnotin
      refine ⟨r0, hr0, hid1, hval1, ?_⟩
      intro hmem
      exact (List.mem_cons.mp hmem).elim hc hnotin

/-- C6 as amended: against a store whose every row fails the liveness
probe and which holds at most batch-size-many (here 100) valid rows, the
sweep returns a count equal to the number of valid rows before the call
and leaves no valid row behind.  (As stated the claim is false when the
store holds more than 100 valid rows; see the counterexample.) -/
theorem claim_C6 (probe : String → Nat → ProbeResult) (now : Nat) (db : FalUploadDB)
    (hdead : ∀ r ∈ db.rows, check_url_validity probe r.url 10 = false)
    (hle : (get_stats db).valid_records ≤ 100) :
    (cleanup_invalid_urls probe now 100 db).1 = (get_stats db).valid_records ∧
    (get_stats (cleanup_invalid_urls probe now 100 db).2).valid_records = 0 := by
  have hvalid_eq : (get_stats db).valid_records =
      (db.rows.filter (fun r => decide (r.isValid = 1))).length := by
    simp only [get_stats]
  have htake : (db.rows.filter (fun r => decide (r.isValid = 1))).take 100 =
      db.rows.filter (fun r => decide (r.isValid = 1)) := by
    apply List.take_of_length_le
    rw [← hvalid_eq]
    exact hle
  have hdead' : ∀ r ∈ db.rows.filter (fun r => decide (r.isValid = 1)),
      check_url_validity probe r.url 10 = false :=
    fun r hr => hdead r (List.mem_filter.mp hr).1
  have hfold := cleanup_fold_dead_eq probe now
    (db.rows.filter (fun r => decide (r.isValid = 1))) hdead' 0 db
  have hclean : cleanup_invalid_urls probe now 100 db =
      ((db.rows.filter (fun r => decide (r.isValid = 1))).length,
        invalidateIds
          ((db.rows.filter (fun r => decide (r.isValid = 1))).map (fun r => r.id))
          now db) := by
    simp only [cleanup_invalid_urls, htake]
    rw [hfold]
    simp
  constructor
  · rw [hclean, hvalid_eq]
  · rw [hclean]
    simp only [get_stats]
    rw [List.length_eq_zero]
    rw [List.filter_eq_nil_iff]
    intro r' hr' hval
    rw [decide_eq_true_eq] at hval
    rcases invalidateIds_valid_origin now _ db r' hr' hval with ⟨r0, hr0, -, hval0, hnotin⟩
    apply hnotin
    apply List.mem_map_of_mem
    rw [List.mem_filter]
    exact ⟨hr0, by rw [decide_eq_true_eq]; exact hval0⟩

/-- A table row used by the sweep counterexample. -/
def mkRecC6 (i : Nat) : UploadRecord :=
  { id := i + 1, filename := "f", url := "u", filePath := none, fileSize := none,
    fileHash := none, uploadDate := 0, lastVerified := none, isValid := 1,
    metadata := none, createdAt := 0, updatedAt := 0 }

/-- A store with 101 valid rows, every URL dead under probeFail. -/
def dbC6 : FalUploadDB := { rows := (List.range 101).map mkRecC6, nextId := 102 }

/-- Counterexample to C6 as stated: in a store of 101 valid rows whose
URLs all fail the probe, sweepInvalidate with batch size 100 returns 100
(not the 101 valid records before the sweep) and leaves 1 valid row (not
0). -/
theorem claim_C6_counterexample :
    (∀ r ∈ dbC6.rows, check_url_validity probeFail r.url 10 = false) ∧
    (get_stats dbC6).valid_records = 101 ∧
    (cleanup_invalid_urls probeFail 0 100 dbC6).1 = 100 ∧
    (get_stats (cleanup_invalid_urls probeFail 0 100 dbC6).2).valid_records = 1 := by
  set_option maxRecDepth 100000 in decide

/-- Witness for the amended C6 on a one-row store. -/
theorem claim_C6_witness :
    (cleanup_invalid_urls probeFail 0 100 dbW1).1 = (get_stats dbW1).valid_records ∧
    (get_stats (cleanup_invalid_urls probeFail 0 100 dbW1).2).valid_records = 0 :=
  claim_C6 probeFail 0 dbW1 (by decide) (by decide)

/-- The row INSERTed by insert_upload, named for reasoning. -/
def insertedRow (fs : FileSystem) (now : Nat) (filename url : String)
    (file_path : Option String) (metadata : Option String) (db : FalUploadDB) :
    UploadRecord :=
  let sizeHash : Option Nat × Option String :=
    match file_path with
    | none => (none, none)
    | some p =>
      if fs.fexists p then
        match fs.fsize p with
        | some s => (some s, calculate_file_hash fs p)
        | none => (none, none)
      else (none, none)
  { id := db.nextId, filename := filename, url := url, filePath := file_path,
    fileSize := sizeHash.1, fileHash := sizeHash.2, uploadDate := now,
    lastVerified := some now, isValid := 1, metadata := metadata,
    createdAt := now, updatedAt := now }

/-- insert_upload appends exactly the named row and bumps the counter. -/
theorem insert_upload_eq (fs : FileSystem) (now : Nat) (filename url : String)
    (file_path : Option String) (metadata : Option String) (db : FalUploadDB) :
    insert_upload fs now filename url file_path metadata db =
      (db.nextId,
        { rows := db.rows ++ [insertedRow fs now filename url file_path metadata db],
          nextId := db.nextId + 1 }) := rfl

/-- C7: round-trip.  If the store's clock is monotone (no stored row was
created after the insertion time) and rowids are in range, then
inserting a record for the final component of a path and immediately
resolving that path with the liveness probe stubbed to always succeed
reports found and returns a record carrying the inserted URL. -/
theorem claim_C7 (probe : String → Nat → ProbeResult) (fs : FileSystem)
    (t1 t2 : Nat) (url path : String) (fp md : Option String) (db : FalUploadDB)
    (hclock : ∀ r ∈ db.rows, r.createdAt ≤ t1)
    (hwf : ∀ r ∈ db.rows, r.id < db.nextId)
    (hlive : ∀ u t, probe u t = ProbeResult.status 200) :
    (check_file_in_database probe fs t2 path
        (insert_upload fs t1 (basename path) url fp md db).2).1 = true ∧
    ∃ r, (check_file_in_database probe fs t2 path
        (insert_upload fs t1 (basename path) url fp md db).2).2.1 = some r ∧
      r.url = url := by
  have hcheckall : ∀ u, check_url_validity probe u 10 = true := by
    intro u
    unfold check_url_validity
    rw [hlive]
    rfl
  have hrows : (insert_upload fs t1 (basename path) url fp md db).2.rows =
      db.rows ++ [insertedRow fs t1 (basename path) url fp md db] := rfl
  have hsel : selectLatest (fun r0 => decide (r0.filename = basename path))
      (db.rows ++ [insertedRow fs t1 (basename path) url fp md db]) =
      some (insertedRow fs t1 (basename path) url fp md db) := by
    apply selectLatest_eq_of_strict_max
    · exact List.mem_append_right _ (List.mem_singleton.mpr rfl)
    · rw [matchesValid_spec, decide_eq_true_eq]
      exact ⟨rfl, rfl⟩
    · intro r' hr' hmv
      rcases List.mem_append.mp hr' with hmem | hmem
      · right
        rw [recLt_spec]
        have h1 := hclock r' hmem
        have h2 := hwf r' hmem
        have h3 : (insertedRow fs t1 (basename path) url fp md db).createdAt = t1 := rfl
        have h4 : (insertedRow fs t1 (basename path) url fp md db).id = db.nextId := rfl
        omega
      · left
        exact List.mem_singleton.mp hmem
  have hff : find_by_filename probe t2 (basename path) true
      (insert_upload fs t1 (basename path) url fp md db).2 =
      (some (insertedRow fs t1 (basename path) url fp md db),
        update_last_verified (insertedRow fs t1 (basename path) url fp md db).id t2
          (insert_upload fs t1 (basename path) url fp md db).2) := by
    simp only [find_by_filename, hrows, hsel, hcheckall]
    simp
  rw [check_eq_of_found hff]
  exact ⟨rfl, insertedRow fs t1 (basename path) url fp md db, rfl, rfl⟩

/-- Witness for C7 on the empty store. -/
theorem claim_C7_witness :
    (check_file_in_database probeLive fsEmpty 1 "x/a.png"
        (insert_upload fsEmpty 0 (basename "x/a.png") "https://x/1" none none initDB).2).1 = true ∧
    ∃ r, (check_file_in_database probeLive fsEmpty 1 "x/a.png"
        (insert_upload fsEmpty 0 (basename "x/a.png") "https://x/1" none none initDB).2).2.1 = some r ∧
      r.url = "https://x/1" :=
  claim_C7 probeLive fsEmpty 0 1 "https://x/1" "x/a.png" none none initDB
    (by decide) (by decide) (fun u t => rfl)

/-- C8: hash fallback.  When no valid row carries the path's final
component as filename (so the filename lookup misses without probing),
the file exists and hashes to a digest carried by a stored valid record
that is strictly newest among the valid records with that digest, and
that record's URL is live, then resolution returns found together with
exactly that record, leaving the table unchanged. -/
theorem claim_C8 (probe : String → Nat → ProbeResult) (fs : FileSystem)
    (now : Nat) (path hsh : String) (db : FalUploadDB) (r : UploadRecord)
    (hnofn : ∀ r' ∈ db.rows, r'.filename = basename path → r'.isValid ≠ 1)
    (hfe : fs.fexists path = true)
    (hch : calculate_file_hash fs path = some hsh)
    (hr : r ∈ db.rows) (hrh : r.fileHash = some hsh) (hrv : r.isValid = 1)
    (hnewest : ∀ r' ∈ db.rows, r'.fileHash = some hsh → r'.isValid = 1 →
       r' = r ∨ recLt r' r = true)
    (hlive : check_url_validity probe r.url 10 = true) :
    check_file_in_database probe fs now path db = (true, some r, db) := by
  have hff : find_by_filename probe now (basename path) true db = (none, db) :=
    find_by_filename_none_of_no_match hnofn
  have hsel : selectLatest (fun r0 => decide (r0.fileHash = some hsh)) db.rows = some r := by
    apply selectLatest_eq_of_strict_max hr
    · rw [matchesValid_spec, decide_eq_true_eq]
      exact ⟨hrh, hrv⟩
    · intro r' hr' hmv
      rw [matchesValid_spec, decide_eq_true_eq] at hmv
      exact hnewest r' hr' hmv.1 hmv.2
  have hfh : find_by_hash probe now hsh true db = (some r, db) := by
    simp only [find_by_hash, hsel, hlive]
    simp
  exact check_eq_of_hash_found hff hfe hch hfh

/-- A filesystem oracle on which every path exists and hashes to the
fixture digest. -/
def fsW8 : FileSystem :=
  { fexists := fun _ => true, fsize := fun _ => some 3, fhash := fun _ => some "h" }

/-- Witness for C8: resolving a renamed path finds the fixture row via
its content hash. -/
theorem claim_C8_witness :
    check_file_in_database probeLive fsW8 4 "x/b.png" dbW1 = (true, some recW1, dbW1) :=
  claim_C8 probeLive fsW8 4 "x/b.png" "h" dbW1 recW1
    (by decide) rfl rfl (by decide) rfl rfl (by decide) rfl

/-- C9: a store-write failure after a successful upload is non-fatal.
When the file and the upload script exist, resolution either misses or
the force flag is set, the external uploader returns a URL, and the
insert into the store raises, the wrapper still returns the uploaded URL
to the caller, and the store is left exactly as resolution left it (no
row was added). -/
theorem claim_C9 (probe : String → Nat → ProbeResult) (fs : FileSystem) (now : Nat)
    (url path : String) (force : Bool) (db : FalUploadDB)
    (hfe : fs.fexists path = true)
    (hproceed : (check_file_in_database probe fs now path db).1 = false ∨ force = true) :
    (upload_with_database_wrapper probe fs now true (some url) true force path db).1 =
      some url ∧
    (upload_with_database_wrapper probe fs now true (some url) true force path db).2 =
      (check_file_in_database probe fs now path db).2.2 := by
  cases hc : check_file_in_database probe fs now path db with
  | mk found rest =>
    cases rest with
    | mk o db1 =>
      cases found with
      | true =>
        cases o with
        | some record =>
          have hforce : force = true := by
            rcases hproceed with hmiss | hf
            · rw [hc] at hmiss
              cases hmiss
            · exact hf
          simp only [upload_with_database_wrapper, hfe, hc, hforce]
          simp
        | none =>
          simp only [upload_with_database_wrapper, hfe, hc]
          simp
      | false =>
        simp only [upload_with_database_wrapper, hfe, hc]
        simp

/-- Witness for C9: on the empty store the wrapper reports the uploaded
URL even though the insert raised. -/
theorem claim_C9_witness :
    (upload_with_database_wrapper probeLive fsW8 3 true (some "https://x/9") true false
        "a" initDB).1 = some "https://x/9" ∧
    (upload_with_database_wrapper probeLive fsW8 3 true (some "https://x/9") true false
        "a" initDB).2 = (check_file_in_database probeLive fsW8 3 "a" initDB).2.2 :=
  claim_C9 probeLive fsW8 3 "https://x/9" "a" false initDB rfl (Or.inl (by decide))
